import Mathlib

/-!
# Verification of the `PixelBits` pixel-perfect collision module

Shallow embedding of `src/PixelBits.cpp` (zsdx): construction of a
bit-per-pixel opacity bitmap from an 8-bit indexed surface, and the
pixel-level collision test between two such bitmaps.

Machine integers are modelled as follows: C `int` values (positions,
sizes, offsets, loop counters) become `Int`; `Uint32` bitmap words become
`Nat` values kept below `2 ^ 32` (the constructor only ever produces such
words); `Uint8` palette bytes become `Nat` reduced `% 256` where the code
casts.  All divisions and remainders the code performs act on nonnegative
operands, where Lean's `Int` division agrees with C's.
-/

/-- Rectangle `SDL_Rect`: a position and size, as used by the module (integral fields). -/
structure SDL_Rect where
  x : Int
  y : Int
  w : Int
  h : Int
deriving DecidableEq

/-- The part of `SDL_Surface` the constructor reads: the pixel format's
bit depth, the format's colorkey, the surface width (stride, in pixels)
and the flat pixel buffer, one byte per index. -/
structure Surface where
  bitsPerPixel : Nat
  colorkey : Nat
  w : Int
  pixels : Int → Nat

/-- The `PixelBits` object: frame size, number of 32-bit words per row,
and the 2D grid of words (`bits[row][word]`). -/
structure PixelBits where
  width : Int
  height : Int
  nb_integers_per_row : Int
  bits : List (List Nat)
deriving DecidableEq

/-- State of the constructor's inner (per-row) loop: the words written so
far for the current row (`bits[i][0..k]`, `k = words.length - 1`) and the
current bit mask. -/
structure RowState where
  words : List Nat
  mask : Nat
deriving DecidableEq

/-- Apply `f` to the last element of a list (the word at index `k`,
which `bits[i][k] |= mask` updates). -/
def update_last (f : Nat → Nat) : List Nat → List Nat
  | [] => []
  | [a] => [f a]
  | a :: b :: rest => a :: update_last f (b :: rest)

/-- The constructor's inner loop (`PixelBits.cpp` lines 33-48) after `j`
iterations: starting from `k = -1`, `mask = 0`, for each column the loop
opens a fresh zero word when the mask has been exhausted, sets the current
mask bit when the source byte differs from the colorkey, then shifts the
mask right.  `base` is the buffer index of the row's first pixel. -/
def build_row (pixels : Int → Nat) (colorkey : Nat) (base : Int) : Nat → RowState
  | 0 => ⟨[], 0⟩
  | j + 1 =>
    let s := build_row pixels colorkey base j
    let s := if s.mask = 0 then ⟨s.words ++ [0], 0x80000000⟩ else s
    let s := if pixels (base + (j : Int)) != colorkey
             then ⟨update_last (fun w => w ||| s.mask) s.words, s.mask⟩
             else s
    ⟨s.words, s.mask >>> 1⟩

/-- Constructor `PixelBits::PixelBits(surface, image_position)` (lines 8-50): `none`
models the `DIE` on a non-8-bit format; otherwise the bitmap is built row
by row.  Row `i` starts at buffer index
`(image_position.y + i) * surface->w + image_position.x`, which is the
value the running `pixel_index` has there. -/
def PixelBits.construct (surface : Surface) (image_position : SDL_Rect) :
    Option PixelBits :=
  if surface.bitsPerPixel ≠ 8 then none
  else
    let colorkey := surface.colorkey % 256
    let width := image_position.w
    let height := image_position.h
    let nipr := width / 32 + (if width % 32 ≠ 0 then 1 else 0)
    some { width := width
           height := height
           nb_integers_per_row := nipr
           bits := (List.range height.toNat).map (fun (i : Nat) =>
             (build_row surface.pixels colorkey
               ((image_position.y + (i : Int)) * surface.w + image_position.x)
               width.toNat).words) }

/-- Helper `PixelBits::check_rectangle_collision` (lines 209-226): strict
inequalities on both axes. -/
def check_rectangle_collision (rectangle1 rectangle2 : SDL_Rect) : Bool :=
  let x1 := rectangle1.x
  let x2 := x1 + rectangle1.w
  let x3 := rectangle2.x
  let x4 := x3 + rectangle2.w
  let overlap_x := decide (x3 < x2) && decide (x1 < x4)
  let y1 := rectangle1.y
  let y2 := y1 + rectangle1.h
  let y3 := rectangle2.y
  let y4 := y3 + rectangle2.h
  let overlap_y := decide (y3 < y2) && decide (y1 < y4)
  overlap_x && overlap_y

/-- Read `bits[i]` (an `int`-indexed row pointer). -/
def getRow (bits : List (List Nat)) (i : Int) : List Nat := bits.getD i.toNat []

/-- Read `row[j]` (an `int`-indexed `Uint32` read). -/
def getWord (row : List Nat) (j : Int) : Nat := row.getD j.toNat 0

/-- The double loop of `check_collision` (lines 169-198) once the roles
`a`/`b` are assigned: for each row of the intersection and each mask of
row `a`, compare the mask of row `a` with the right part of a mask of
row `b` and, when `has_row_b_additional_mask`, the left part of the next
mask of row `b`.  The early-exit `&& !collision` loops compute exactly
`List.any`. -/
def collision_core (rows_a rows_b : Int → List Nat)
    (intersection_h nb_masks_per_row_a nb_unused_masks_row_b nb_unused_bits_row_b : Int)
    (has_row_b_additional_mask : Bool) : Bool :=
  let nb_used_bits_row_b := 32 - nb_unused_bits_row_b
  (List.range intersection_h.toNat).any fun i =>
    (List.range nb_masks_per_row_a.toNat).any fun j =>
      let bits_a := rows_a (i : Int)
      let bits_b := rows_b (i : Int)
      let mask_a := getWord bits_a (j : Int)
      let mask_b := getWord bits_b ((j : Int) + nb_unused_masks_row_b)
      let next_mask_b_left :=
        if has_row_b_additional_mask then
          getWord bits_b ((j : Int) + nb_unused_masks_row_b + 1) >>> nb_used_bits_row_b.toNat
        else 0
      let mask_a_left := mask_a >>> nb_unused_bits_row_b.toNat
      ((mask_a_left &&& mask_b) ||| (mask_a &&& next_mask_b_left)) != 0

/-- Computation of `nb_masks_per_row_a` (lines 146-149) from the intersection width. -/
def nb_masks_per_row_a_of (iw : Int) : Int :=
  iw / 32 + (if iw % 32 ≠ 0 then 1 else 0)

/-- Computation of `has_row_b_additional_mask` (line 157 / 164): the strict comparison
the code performs. -/
def has_row_b_additional_mask_of
    (nb_masks_per_row_a nb_unused_masks_row_b nb_integers_per_row_b : Int) : Bool :=
  decide (nb_masks_per_row_a + nb_unused_masks_row_b + 1 < nb_integers_per_row_b)

/-- The local variables `check_collision` computes between the prefilter
and the comparison loops (lines 114-166), with the `a`/`b` role fields
filled according to the branch of line 152. -/
structure CollisionParams where
  intersection : SDL_Rect
  offset_y_a : Int
  offset_y_b : Int
  bits_a : List (List Nat)
  bits_b : List (List Nat)
  height_a : Int
  height_b : Int
  nb_integers_per_row_a : Int
  nb_integers_per_row_b : Int
  nb_masks_per_row_a : Int
  nb_unused_masks_row_b : Int
  nb_unused_bits_row_b : Int
  has_row_b_additional_mask : Bool
deriving DecidableEq

/-- Intersection geometry, offsets and role assignment of
`check_collision` (lines 114-166): `a` is the bitmap whose bounding box
starts strictly further right (line 152), `b` the other one. -/
def PixelBits.collision_params (self other : PixelBits)
    (location1 location2 : SDL_Rect) : CollisionParams :=
  let bounding_box1 : SDL_Rect :=
    { x := location1.x, y := location1.y, w := self.width, h := self.height }
  let bounding_box2 : SDL_Rect :=
    { x := location2.x, y := location2.y, w := other.width, h := other.height }
  let ix := max bounding_box1.x bounding_box2.x
  let iy := max bounding_box1.y bounding_box2.y
  let iw := min (bounding_box1.x + bounding_box1.w) (bounding_box2.x + bounding_box2.w) - ix
  let ih := min (bounding_box1.y + bounding_box1.h) (bounding_box2.y + bounding_box2.h) - iy
  let offset_x1 := ix - bounding_box1.x
  let offset_y1 := iy - bounding_box1.y
  let offset_x2 := ix - bounding_box2.x
  let offset_y2 := iy - bounding_box2.y
  let nb_masks_per_row_a := nb_masks_per_row_a_of iw
  if bounding_box1.x > bounding_box2.x then
    { intersection := ⟨ix, iy, iw, ih⟩
      offset_y_a := offset_y1, offset_y_b := offset_y2
      bits_a := self.bits, bits_b := other.bits
      height_a := self.height, height_b := other.height
      nb_integers_per_row_a := self.nb_integers_per_row
      nb_integers_per_row_b := other.nb_integers_per_row
      nb_masks_per_row_a := nb_masks_per_row_a
      nb_unused_masks_row_b := offset_x2 / 32
      nb_unused_bits_row_b := offset_x2 % 32
      has_row_b_additional_mask :=
        has_row_b_additional_mask_of nb_masks_per_row_a (offset_x2 / 32)
          other.nb_integers_per_row }
  else
    { intersection := ⟨ix, iy, iw, ih⟩
      offset_y_a := offset_y2, offset_y_b := offset_y1
      bits_a := other.bits, bits_b := self.bits
      height_a := other.height, height_b := self.height
      nb_integers_per_row_a := other.nb_integers_per_row
      nb_integers_per_row_b := self.nb_integers_per_row
      nb_masks_per_row_a := nb_masks_per_row_a
      nb_unused_masks_row_b := offset_x1 / 32
      nb_unused_bits_row_b := offset_x1 % 32
      has_row_b_additional_mask :=
        has_row_b_additional_mask_of nb_masks_per_row_a (offset_x1 / 32)
          self.nb_integers_per_row }

/-- Method `PixelBits::check_collision` (lines 98-201): bounding boxes, rectangle
prefilter, intersection geometry and role assignment
(`collision_params`), then the row comparison (`collision_core`). -/
def PixelBits.check_collision (self other : PixelBits)
    (location1 location2 : SDL_Rect) : Bool :=
  let bounding_box1 : SDL_Rect :=
    { x := location1.x, y := location1.y, w := self.width, h := self.height }
  let bounding_box2 : SDL_Rect :=
    { x := location2.x, y := location2.y, w := other.width, h := other.height }
  if check_rectangle_collision bounding_box1 bounding_box2 = false then false
  else
    let p := self.collision_params other location1 location2
    collision_core
      (fun i => getRow p.bits_a (p.offset_y_a + i))
      (fun i => getRow p.bits_b (p.offset_y_b + i))
      p.intersection.h p.nb_masks_per_row_a p.nb_unused_masks_row_b
      p.nb_unused_bits_row_b p.has_row_b_additional_mask

/-- Spec-side view of a bitmap: bit `(row, col)` per the documented
convention (bit 31 of word `col / 32` is the leftmost pixel of that
word's span). -/
def PixelBits.bit (pb : PixelBits) (row col : Nat) : Bool :=
  Nat.testBit ((pb.bits.getD row []).getD (col / 32) 0) (31 - col % 32)

/-- Spec-side collision predicate, from the spec's words: some opaque
pixel of `a` and some opaque pixel of `b` coincide on the shared plane. -/
def spec_pixels_overlap (a : PixelBits) (posA : SDL_Rect)
    (b : PixelBits) (posB : SDL_Rect) : Bool :=
  (List.range a.height.toNat).any fun ra =>
    (List.range a.width.toNat).any fun ca =>
      let cb := posA.x + (ca : Int) - posB.x
      let rb := posA.y + (ra : Int) - posB.y
      decide (0 ≤ cb) && decide (cb < b.width) && decide (0 ≤ rb) &&
        decide (rb < b.height) && a.bit ra ca && b.bit rb.toNat cb.toNat

/-- Shape facts the constructor establishes and `check_collision`'s index
arithmetic relies on: the per-row word count is the one computed at
lines 20-23. -/
def PixelBits.wf_dims (pb : PixelBits) : Prop :=
  pb.nb_integers_per_row = pb.width / 32 + (if pb.width % 32 ≠ 0 then 1 else 0)

/-- Every stored word fits in 32 bits (the C type of the grid is
`Uint32`). -/
def PixelBits.wf_words (pb : PixelBits) : Prop :=
  ∀ row ∈ pb.bits, ∀ w ∈ row, w < 2 ^ 32

/- ### Helper lemmas -/

lemma check_rectangle_collision_iff (rectangle1 rectangle2 : SDL_Rect) :
    check_rectangle_collision rectangle1 rectangle2 = true ↔
      (rectangle2.x < rectangle1.x + rectangle1.w ∧
       rectangle1.x < rectangle2.x + rectangle2.w ∧
       rectangle2.y < rectangle1.y + rectangle1.h ∧
       rectangle1.y < rectangle2.y + rectangle2.h) := by
  simp [check_rectangle_collision, and_assoc]

lemma construct_some (surface : Surface) (image_position : SDL_Rect) (pb : PixelBits)
    (hc : PixelBits.construct surface image_position = some pb) :
    surface.bitsPerPixel = 8 ∧
    pb = ⟨image_position.w, image_position.h,
      image_position.w / 32 + (if image_position.w % 32 ≠ 0 then 1 else 0),
      (List.range image_position.h.toNat).map (fun (i : Nat) =>
        (build_row surface.pixels (surface.colorkey % 256)
          ((image_position.y + (i : Int)) * surface.w + image_position.x)
          image_position.w.toNat).words)⟩ := by
  unfold PixelBits.construct at hc
  split at hc
  · exact absurd hc (by simp)
  · next h => exact ⟨not_not.mp h, (Option.some.inj hc).symm⟩

/- ### Claims -/

/-- C6: `check_rectangle_collision` returns true if and only if the four
strict inequalities of half-open interval overlap hold on both axes; two
rectangles that only touch on a boundary edge satisfy one of them with
equality and are reported as not overlapping. -/
theorem C6_rectangle_collision_halfopen (rectangle1 rectangle2 : SDL_Rect) :
    check_rectangle_collision rectangle1 rectangle2 = true ↔
      (rectangle2.x < rectangle1.x + rectangle1.w ∧
       rectangle1.x < rectangle2.x + rectangle2.w ∧
       rectangle2.y < rectangle1.y + rectangle1.h ∧
       rectangle1.y < rectangle2.y + rectangle2.h) :=
  check_rectangle_collision_iff rectangle1 rectangle2

/-- C7: whenever the two bounding boxes (each built from the query
position and the bitmap's own width and height) fail the rectangle test,
`check_collision` returns false, whatever the two word grids hold. -/
theorem C7_bounding_box_rejection (self other : PixelBits)
    (location1 location2 : SDL_Rect)
    (h : check_rectangle_collision
      ⟨location1.x, location1.y, self.width, self.height⟩
      ⟨location2.x, location2.y, other.width, other.height⟩ = false) :
    self.check_collision other location1 location2 = false := by
  simp [PixelBits.check_collision, h]

/-- Witness for C7: two 1×1 bitmaps with set bits, five pixels apart. -/
theorem C7_bounding_box_rejection_witness :
    check_rectangle_collision ⟨0, 0, 1, 1⟩ ⟨5, 5, 1, 1⟩ = false ∧
    PixelBits.check_collision ⟨1, 1, 1, [[2147483648]]⟩ ⟨1, 1, 1, [[2147483648]]⟩
      ⟨0, 0, 0, 0⟩ ⟨5, 5, 0, 0⟩ = false :=
  ⟨by decide, C7_bounding_box_rejection ⟨1, 1, 1, [[2147483648]]⟩ ⟨1, 1, 1, [[2147483648]]⟩
    ⟨0, 0, 0, 0⟩ ⟨5, 5, 0, 0⟩ (by decide)⟩

/-- C9: construction yields nothing (the `DIE` of line 12) exactly when
the format is not 8 bits per pixel, and yields a bitmap exactly when it
is. -/
theorem C9_format_check (surface : Surface) (image_position : SDL_Rect) :
    (PixelBits.construct surface image_position = none ↔ surface.bitsPerPixel ≠ 8) ∧
    ((∃ pb, PixelBits.construct surface image_position = some pb) ↔
      surface.bitsPerPixel = 8) := by
  unfold PixelBits.construct
  by_cases h : surface.bitsPerPixel = 8 <;> simp [h]

/-- C8: for a constructed bitmap of positive width,
`nb_integers_per_row` is `⌈width / 32⌉`; it is `width / 32` when the
width is a multiple of 32 and `1` when the width is `1`. -/
theorem C8_words_per_row (surface : Surface) (image_position : SDL_Rect)
    (pb : PixelBits)
    (hc : PixelBits.construct surface image_position = some pb)
    (_hw : 0 < image_position.w) :
    pb.nb_integers_per_row = (image_position.w + 31) / 32 ∧
    (image_position.w % 32 = 0 →
      pb.nb_integers_per_row = image_position.w / 32) ∧
    (image_position.w = 1 → pb.nb_integers_per_row = 1) := by
  obtain ⟨-, hpb⟩ := construct_some surface image_position pb hc
  subst hpb
  refine ⟨?_, ?_, ?_⟩ <;> (simp only; split <;> omega)

/-- Witness for C8: a 33×2 all-transparent frame gets 2 words per row. -/
theorem C8_words_per_row_witness :
    (PixelBits.nb_integers_per_row ⟨33, 2, 2, [[0, 0], [0, 0]]⟩ = (33 + 31) / 32 ∧
      ((33 : Int) % 32 = 0 → PixelBits.nb_integers_per_row ⟨33, 2, 2, [[0, 0], [0, 0]]⟩ = 33 / 32) ∧
      ((33 : Int) = 1 → PixelBits.nb_integers_per_row ⟨33, 2, 2, [[0, 0], [0, 0]]⟩ = 1)) :=
  C8_words_per_row ⟨8, 0, 33, fun _ => 0⟩ ⟨0, 0, 33, 2⟩ ⟨33, 2, 2, [[0, 0], [0, 0]]⟩
    (by decide) (by decide)

set_option maxRecDepth 4096 in
/-- C1: the collision test is not equivalent to the existence of
coinciding opaque pixels.  Let `a` be the 32×1 bitmap whose only opaque
pixel is (row 0, col 31), placed at (1,0), and `b` the 33×1 bitmap whose
only opaque pixel is (row 0, col 32), placed at (0,0).  Both opaque
pixels sit at the shared-plane point (32,0), yet `check_collision`
returns false: `b`'s row has exactly one word past the covered span, the
strict `<` of line 157 leaves `has_row_b_additional_mask` false, and the
cross-word comparison term is dropped. -/
theorem C1_missed_collision :
    ∃ a b : PixelBits,
      PixelBits.construct ⟨8, 0, 32, fun idx => if idx = 31 then 1 else 0⟩
        ⟨0, 0, 32, 1⟩ = some a ∧
      PixelBits.construct ⟨8, 0, 33, fun idx => if idx = 32 then 1 else 0⟩
        ⟨0, 0, 33, 1⟩ = some b ∧
      spec_pixels_overlap a ⟨1, 0, 0, 0⟩ b ⟨0, 0, 0, 0⟩ = true ∧
      a.check_collision b ⟨1, 0, 0, 0⟩ ⟨0, 0, 0, 0⟩ = false := by
  refine ⟨⟨32, 1, 1, [[1]]⟩, ⟨33, 1, 2, [[0, 0x80000000]]⟩, ?_, ?_, ?_, ?_⟩ <;> decide

/-- C2: the flag is computed with a strict `<` (line 157), not the
claimed `≤`.  In the very query of the C1 scenario the parameters are
`nb_masks_per_row_a = 1`, `nb_unused_masks_row_b = 0` and
`nb_integers_per_row` of row `b`'s bitmap `= 2`: row `b` does have one
more word past the covered span (`1 + 0 + 1 ≤ 2`) but the code's flag is
false. -/
theorem C2_flag_strict_lt :
    (PixelBits.collision_params ⟨32, 1, 1, [[1]]⟩ ⟨33, 1, 2, [[0, 0x80000000]]⟩
       ⟨1, 0, 0, 0⟩ ⟨0, 0, 0, 0⟩).nb_masks_per_row_a = 1 ∧
    (PixelBits.collision_params ⟨32, 1, 1, [[1]]⟩ ⟨33, 1, 2, [[0, 0x80000000]]⟩
       ⟨1, 0, 0, 0⟩ ⟨0, 0, 0, 0⟩).nb_unused_masks_row_b = 0 ∧
    (PixelBits.collision_params ⟨32, 1, 1, [[1]]⟩ ⟨33, 1, 2, [[0, 0x80000000]]⟩
       ⟨1, 0, 0, 0⟩ ⟨0, 0, 0, 0⟩).nb_integers_per_row_b = 2 ∧
    (1 + 0 + 1 : Int) ≤ 2 ∧
    (PixelBits.collision_params ⟨32, 1, 1, [[1]]⟩ ⟨33, 1, 2, [[0, 0x80000000]]⟩
       ⟨1, 0, 0, 0⟩ ⟨0, 0, 0, 0⟩).has_row_b_additional_mask = false := by
  decide

set_option maxRecDepth 8192 in
/-- C3: word-aligned offsets do not make the flag false.  Querying the
128×1 bitmap against the 32×1 bitmap, both at (0,0), assigns role `b` to
the wide bitmap with `nb_unused_bits_row_b = 0` (fully word-aligned),
yet `has_row_b_additional_mask` is true (`1 + 0 + 1 < 4`): the loop then
reads row `b`'s word `j + 1`, past the single word covered by the
intersection, and shifts it right by `nb_used_bits_row_b = 32` bits — a
shift by the full width of the C `Uint32`. -/
theorem C3_flag_true_despite_alignment :
    ∃ wide narrow : PixelBits,
      PixelBits.construct ⟨8, 0, 128, fun _ => 0⟩ ⟨0, 0, 128, 1⟩ = some wide ∧
      PixelBits.construct ⟨8, 0, 32, fun _ => 0⟩ ⟨0, 0, 32, 1⟩ = some narrow ∧
      (wide.collision_params narrow ⟨0, 0, 0, 0⟩ ⟨0, 0, 0, 0⟩).nb_unused_bits_row_b = 0 ∧
      (wide.collision_params narrow ⟨0, 0, 0, 0⟩ ⟨0, 0, 0, 0⟩).nb_masks_per_row_a +
        (wide.collision_params narrow ⟨0, 0, 0, 0⟩ ⟨0, 0, 0, 0⟩).nb_unused_masks_row_b = 1 ∧
      (wide.collision_params narrow ⟨0, 0, 0, 0⟩ ⟨0, 0, 0, 0⟩).has_row_b_additional_mask = true ∧
      32 - (wide.collision_params narrow ⟨0, 0, 0, 0⟩ ⟨0, 0, 0, 0⟩).nb_unused_bits_row_b = 32 := by
  refine ⟨⟨128, 1, 4, [[0, 0, 0, 0]]⟩, ⟨32, 1, 1, [[0]]⟩, ?_, ?_, ?_, ?_, ?_, ?_⟩ <;> decide

/-- C10: whenever the bounding boxes overlap, every array access of
`check_collision` stays in bounds: each row index used on either bitmap
is in `[0, height)` of that bitmap, each word index read from row `a` is
in `[0, nb_integers_per_row)` of `a`'s bitmap, and each word index read
from row `b` — including the `j + nb_unused_masks_row_b + 1` access
guarded by `has_row_b_additional_mask` — is in `[0, nb_integers_per_row)`
of `b`'s bitmap. -/
theorem C10_accesses_in_bounds (self other : PixelBits)
    (location1 location2 : SDL_Rect) (p : CollisionParams)
    (hself : self.wf_dims) (hother : other.wf_dims)
    (hover : check_rectangle_collision
      ⟨location1.x, location1.y, self.width, self.height⟩
      ⟨location2.x, location2.y, other.width, other.height⟩ = true)
    (hp : p = self.collision_params other location1 location2) :
    (∀ i : Int, 0 ≤ i → i < p.intersection.h →
      0 ≤ p.offset_y_a + i ∧ p.offset_y_a + i < p.height_a ∧
      0 ≤ p.offset_y_b + i ∧ p.offset_y_b + i < p.height_b) ∧
    (∀ j : Int, 0 ≤ j → j < p.nb_masks_per_row_a →
      j < p.nb_integers_per_row_a ∧
      0 ≤ j + p.nb_unused_masks_row_b ∧
      j + p.nb_unused_masks_row_b < p.nb_integers_per_row_b ∧
      (p.has_row_b_additional_mask = true →
        j + p.nb_unused_masks_row_b + 1 < p.nb_integers_per_row_b)) := by
  rw [check_rectangle_collision_iff] at hover
  obtain ⟨h1, h2, h3, h4⟩ := hover
  dsimp only at h1 h2 h3 h4
  unfold PixelBits.wf_dims at hself hother
  by_cases hx : location1.x > location2.x <;>
      [simp only [PixelBits.collision_params, hx, ite_true] at hp;
       simp only [PixelBits.collision_params, hx, ite_false] at hp] <;>
    subst hp <;>
    refine ⟨fun i ha hb => ?_, fun j ha hb => ?_⟩ <;>
    dsimp only at hb ⊢ <;>
    first
      | omega
      | (unfold nb_masks_per_row_a_of at hb
         unfold has_row_b_additional_mask_of nb_masks_per_row_a_of
         simp only [decide_eq_true_eq]
         split at hself <;> split at hother <;> split at hb <;> split <;> omega)

/-- Witness for C10: the word-aligned wide/narrow query of the C3
scenario. -/
theorem C10_accesses_in_bounds_witness :
    (∀ i : Int, 0 ≤ i →
      i < (PixelBits.collision_params ⟨128, 1, 4, [[0, 0, 0, 0]]⟩ ⟨32, 1, 1, [[0]]⟩
            ⟨0, 0, 0, 0⟩ ⟨0, 0, 0, 0⟩).intersection.h →
      0 ≤ (PixelBits.collision_params ⟨128, 1, 4, [[0, 0, 0, 0]]⟩ ⟨32, 1, 1, [[0]]⟩
            ⟨0, 0, 0, 0⟩ ⟨0, 0, 0, 0⟩).offset_y_a + i ∧
      (PixelBits.collision_params ⟨128, 1, 4, [[0, 0, 0, 0]]⟩ ⟨32, 1, 1, [[0]]⟩
            ⟨0, 0, 0, 0⟩ ⟨0, 0, 0, 0⟩).offset_y_a + i <
        (PixelBits.collision_params ⟨128, 1, 4, [[0, 0, 0, 0]]⟩ ⟨32, 1, 1, [[0]]⟩
            ⟨0, 0, 0, 0⟩ ⟨0, 0, 0, 0⟩).height_a ∧
      0 ≤ (PixelBits.collision_params ⟨128, 1, 4, [[0, 0, 0, 0]]⟩ ⟨32, 1, 1, [[0]]⟩
            ⟨0, 0, 0, 0⟩ ⟨0, 0, 0, 0⟩).offset_y_b + i ∧
      (PixelBits.collision_params ⟨128, 1, 4, [[0, 0, 0, 0]]⟩ ⟨32, 1, 1, [[0]]⟩
            ⟨0, 0, 0, 0⟩ ⟨0, 0, 0, 0⟩).offset_y_b + i <
        (PixelBits.collision_params ⟨128, 1, 4, [[0, 0, 0, 0]]⟩ ⟨32, 1, 1, [[0]]⟩
            ⟨0, 0, 0, 0⟩ ⟨0, 0, 0, 0⟩).height_b) ∧
    (∀ j : Int, 0 ≤ j →
      j < (PixelBits.collision_params ⟨128, 1, 4, [[0, 0, 0, 0]]⟩ ⟨32, 1, 1, [[0]]⟩
            ⟨0, 0, 0, 0⟩ ⟨0, 0, 0, 0⟩).nb_masks_per_row_a →
      j < (PixelBits.collision_params ⟨128, 1, 4, [[0, 0, 0, 0]]⟩ ⟨32, 1, 1, [[0]]⟩
            ⟨0, 0, 0, 0⟩ ⟨0, 0, 0, 0⟩).nb_integers_per_row_a ∧
      0 ≤ j + (PixelBits.collision_params ⟨128, 1, 4, [[0, 0, 0, 0]]⟩ ⟨32, 1, 1, [[0]]⟩
            ⟨0, 0, 0, 0⟩ ⟨0, 0, 0, 0⟩).nb_unused_masks_row_b ∧
      j + (PixelBits.collision_params ⟨128, 1, 4, [[0, 0, 0, 0]]⟩ ⟨32, 1, 1, [[0]]⟩
            ⟨0, 0, 0, 0⟩ ⟨0, 0, 0, 0⟩).nb_unused_masks_row_b <
        (PixelBits.collision_params ⟨128, 1, 4, [[0, 0, 0, 0]]⟩ ⟨32, 1, 1, [[0]]⟩
            ⟨0, 0, 0, 0⟩ ⟨0, 0, 0, 0⟩).nb_integers_per_row_b ∧
      ((PixelBits.collision_params ⟨128, 1, 4, [[0, 0, 0, 0]]⟩ ⟨32, 1, 1, [[0]]⟩
            ⟨0, 0, 0, 0⟩ ⟨0, 0, 0, 0⟩).has_row_b_additional_mask = true →
        j + (PixelBits.collision_params ⟨128, 1, 4, [[0, 0, 0, 0]]⟩ ⟨32, 1, 1, [[0]]⟩
            ⟨0, 0, 0, 0⟩ ⟨0, 0, 0, 0⟩).nb_unused_masks_row_b + 1 <
          (PixelBits.collision_params ⟨128, 1, 4, [[0, 0, 0, 0]]⟩ ⟨32, 1, 1, [[0]]⟩
            ⟨0, 0, 0, 0⟩ ⟨0, 0, 0, 0⟩).nb_integers_per_row_b)) :=
  C10_accesses_in_bounds ⟨128, 1, 4, [[0, 0, 0, 0]]⟩ ⟨32, 1, 1, [[0]]⟩
    ⟨0, 0, 0, 0⟩ ⟨0, 0, 0, 0⟩ _ rfl rfl (by decide) rfl

lemma check_rectangle_collision_comm (rectangle1 rectangle2 : SDL_Rect) :
    check_rectangle_collision rectangle1 rectangle2 =
      check_rectangle_collision rectangle2 rectangle1 := by
  unfold check_rectangle_collision
  dsimp only
  rw [Bool.and_comm (decide (rectangle2.x < rectangle1.x + rectangle1.w)),
    Bool.and_comm (decide (rectangle2.y < rectangle1.y + rectangle1.h))]

lemma getWord_getRow_lt (pb : PixelBits) (hwf : pb.wf_words) (i j : Int) :
    getWord (getRow pb.bits i) j < 2 ^ 32 := by
  unfold getWord getRow
  rcases Nat.lt_or_ge i.toNat pb.bits.length with hi | hi
  · rw [List.getD_eq_getElem _ _ hi]
    rcases Nat.lt_or_ge j.toNat pb.bits[i.toNat].length with hj | hj
    · rw [List.getD_eq_getElem _ _ hj]
      exact hwf _ (List.getElem_mem hi) _ (List.getElem_mem hj)
    · rw [List.getD_eq_default _ _ hj]
      norm_num
  · rw [List.getD_eq_default _ _ hi, List.getD_eq_default _ _ (by simp)]
    norm_num

lemma collision_core_aligned (rows_a rows_b : Int → List Nat)
    (ih n : Int) (f : Bool)
    (hwb : ∀ i j : Int, getWord (rows_b i) j < 2 ^ 32) :
    collision_core rows_a rows_b ih n 0 0 f =
      ((List.range ih.toNat).any fun i => (List.range n.toNat).any fun j =>
        (getWord (rows_a (i : Int)) (j : Int) &&&
          getWord (rows_b (i : Int)) (j : Int)) != 0) := by
  unfold collision_core
  dsimp only
  apply congrArg
  funext i
  apply congrArg
  funext j
  have hshift : getWord (rows_b (i : Int)) ((j : Int) + 0 + 1) >>>
      ((32 : Int) - 0).toNat = 0 := by
    rw [Nat.shiftRight_eq_div_pow]
    exact Nat.div_eq_of_lt (hwb _ _)
  rw [hshift]
  simp only [ite_self, add_zero, Int.toNat_zero, Nat.shiftRight_zero,
    Nat.and_zero, Nat.or_zero]

lemma collision_core_comm (rows_a rows_b : Int → List Nat)
    (ih n : Int) (fa fb : Bool)
    (hwa : ∀ i j : Int, getWord (rows_a i) j < 2 ^ 32)
    (hwb : ∀ i j : Int, getWord (rows_b i) j < 2 ^ 32) :
    collision_core rows_a rows_b ih n 0 0 fa =
      collision_core rows_b rows_a ih n 0 0 fb := by
  rw [collision_core_aligned rows_a rows_b ih n fa hwb,
    collision_core_aligned rows_b rows_a ih n fb hwa]
  apply congrArg
  funext i
  apply congrArg
  funext j
  rw [Nat.land_comm]

lemma collision_params_comm_of_ne (self other : PixelBits)
    (location1 location2 : SDL_Rect) (hne : location1.x ≠ location2.x) :
    self.collision_params other location1 location2 =
      other.collision_params self location2 location1 := by
  unfold PixelBits.collision_params
  dsimp only
  rcases lt_or_gt_of_ne hne with h | h
  · rw [if_neg (by omega), if_pos (by omega)]
    simp only [max_comm location2.x location1.x,
      max_comm location2.y location1.y,
      min_comm (location2.x + other.width) (location1.x + self.width),
      min_comm (location2.y + other.height) (location1.y + self.height)]
  · rw [if_pos (by omega), if_neg (by omega)]
    simp only [max_comm location2.x location1.x,
      max_comm location2.y location1.y,
      min_comm (location2.x + other.width) (location1.x + self.width),
      min_comm (location2.y + other.height) (location1.y + self.height)]

/-- C5: the collision test is commutative: swapping the two bitmaps and
their positions yields the same result.  When the two boxes start at
different x the role assignment picks the same pair either way; when they
start at the same x the roles swap but the word-aligned comparison
reduces to a symmetric word-wise AND. -/
theorem C5_check_collision_comm (self other : PixelBits)
    (location1 location2 : SDL_Rect)
    (hself : self.wf_words) (hother : other.wf_words) :
    self.check_collision other location1 location2 =
      other.check_collision self location2 location1 := by
  unfold PixelBits.check_collision
  dsimp only
  rw [check_rectangle_collision_comm
    ⟨location2.x, location2.y, other.width, other.height⟩
    ⟨location1.x, location1.y, self.width, self.height⟩]
  by_cases hpre : check_rectangle_collision
      ⟨location1.x, location1.y, self.width, self.height⟩
      ⟨location2.x, location2.y, other.width, other.height⟩ = false
  · rw [if_pos hpre, if_pos hpre]
  · rw [if_neg hpre, if_neg hpre]
    by_cases hx : location1.x = location2.x
    · unfold PixelBits.collision_params
      dsimp only
      rw [if_neg (show ¬(location1.x > location2.x) by omega),
        if_neg (show ¬(location2.x > location1.x) by omega)]
      dsimp only
      rw [hx]
      simp only [max_self, sub_self, max_comm location2.y location1.y,
        min_comm (location2.y + other.height) (location1.y + self.height),
        min_comm (location2.x + other.width) (location2.x + self.width)]
      have h032 : (0 : Int) / 32 = 0 := by omega
      have h032m : (0 : Int) % 32 = 0 := by omega
      rw [h032, h032m]
      exact collision_core_comm _ _ _ _ _ _
        (fun i j => getWord_getRow_lt other hother _ _)
        (fun i j => getWord_getRow_lt self hself _ _)
    · rw [collision_params_comm_of_ne self other location1 location2 hx]

/-- Witness for C5: two opaque bitmaps whose boxes start at the same x
(the role-swapping case). -/
theorem C5_check_collision_comm_witness :
    PixelBits.check_collision ⟨1, 1, 1, [[2147483648]]⟩ ⟨2, 1, 1, [[2147483648]]⟩
        ⟨0, 0, 0, 0⟩ ⟨0, 0, 0, 0⟩ =
      PixelBits.check_collision ⟨2, 1, 1, [[2147483648]]⟩ ⟨1, 1, 1, [[2147483648]]⟩
        ⟨0, 0, 0, 0⟩ ⟨0, 0, 0, 0⟩ :=
  C5_check_collision_comm ⟨1, 1, 1, [[2147483648]]⟩ ⟨2, 1, 1, [[2147483648]]⟩
    ⟨0, 0, 0, 0⟩ ⟨0, 0, 0, 0⟩
    (by unfold PixelBits.wf_words; decide) (by unfold PixelBits.wf_words; decide)

lemma update_last_length (f : Nat → Nat) (l : List Nat) :
    (update_last f l).length = l.length := by
  induction l with
  | nil => rfl
  | cons x xs ih =>
    cases xs with
    | nil => rfl
    | cons y ys => simpa [update_last] using ih

lemma update_last_append (f : Nat → Nat) (l : List Nat) (a : Nat) :
    update_last f (l ++ [a]) = l ++ [f a] := by
  induction l with
  | nil => rfl
  | cons x xs ih =>
    cases xs with
    | nil => rfl
    | cons y ys =>
      simp only [List.cons_append, update_last] at ih ⊢
      exact congrArg (List.cons x) ih

lemma getD_update_last (f : Nat → Nat) (l : List Nat) (t : Nat) :
    (update_last f l).getD t 0 =
      if t + 1 = l.length then f (l.getD t 0) else l.getD t 0 := by
  induction l generalizing t with
  | nil => simp [update_last]
  | cons x xs ih =>
    cases xs with
    | nil =>
      cases t with
      | zero => simp [update_last]
      | succ n => simp [update_last]
    | cons y ys =>
      cases t with
      | zero =>
        rw [if_neg (by simp)]
        simp [update_last]
      | succ n =>
        have h := ih n
        simp only [update_last, List.getD_cons_succ, List.length_cons] at h ⊢
        rw [h]
        by_cases hc : n + 1 = ys.length + 1
        · rw [if_pos hc, if_pos (by omega)]
        · rw [if_neg hc, if_neg (by omega)]

lemma getD_append_singleton (l : List Nat) (a : Nat) (t : Nat) :
    (l ++ [a]).getD t 0 =
      if t < l.length then l.getD t 0
      else if t = l.length then a else 0 := by
  rcases Nat.lt_trichotomy t l.length with h | h | h
  · rw [if_pos h, List.getD_append _ _ _ _ h]
  · rw [if_neg (by omega), if_pos h]
    rw [List.getD_eq_getElem _ _ (by simp [h])]
    exact List.getElem_concat_length l a t h _
  · rw [if_neg (by omega), if_neg (by omega),
      List.getD_eq_default _ _ (by simp; omega)]

lemma build_row_spec (pix : Int → Nat) (ck : Nat) (base : Int) (j : Nat) :
    (build_row pix ck base j).words.length = (j + 31) / 32 ∧
    (build_row pix ck base j).mask =
      (if j % 32 = 0 then 0 else 2 ^ (31 - j % 32)) ∧
    ∀ t b : Nat, b < 32 →
      Nat.testBit ((build_row pix ck base j).words.getD t 0) b =
        (decide (32 * t + (31 - b) < j) &&
          (pix (base + ((32 * t + (31 - b) : Nat) : Int)) != ck)) := by
  induction j with
  | zero =>
    refine ⟨rfl, rfl, fun t b hb => ?_⟩
    simp [build_row]
  | succ j ih =>
    obtain ⟨ihlen, ihmask, ihbit⟩ := ih
    have hstep : build_row pix ck base (j + 1) =
        (let s := build_row pix ck base j
         let s1 := if s.mask = 0 then (⟨s.words ++ [0], 0x80000000⟩ : RowState) else s
         let s2 := if pix (base + (j : Int)) != ck
                   then (⟨update_last (fun w => w ||| s1.mask) s1.words, s1.mask⟩ : RowState)
                   else s1
         (⟨s2.words, s2.mask >>> 1⟩ : RowState)) := rfl
    rw [hstep]
    dsimp only
    by_cases hmod : j % 32 = 0
    · have hA : (build_row pix ck base j).mask = 0 := by rw [ihmask, if_pos hmod]
      rw [hA, if_pos rfl]
      dsimp only
      by_cases hpix : (pix (base + (j : Int)) != ck) = true
      · rw [if_pos hpix]
        dsimp only
        rw [update_last_append]
        refine ⟨by simp [ihlen]; omega, by rw [show (j + 1) % 32 = 1 by omega]; decide, ?_⟩
        intro t b hb
        rw [getD_append_singleton]
        split
        · next hlt =>
          rw [ihbit t b hb]
          rw [ihlen] at hlt
          have h1 : 32 * t + (31 - b) < j := by omega
          have h2 : 32 * t + (31 - b) < j + 1 := by omega
          simp [h1, h2]
        · split
          · next hne heq =>
            rw [ihlen] at heq
            by_cases hb31 : b = 31
            · subst hb31
              have hcol : 32 * t + (31 - 31) = j := by omega
              rw [hcol]
              have h2 : j < j + 1 := by omega
              simp [hpix, h2]
              decide
            · have h2 : ¬(32 * t + (31 - b) < j + 1) := by omega
              simp [h2]
              rw [show (2147483648 : Nat) = 2 ^ 31 by norm_num, Nat.testBit_two_pow]
              simp
              omega
          · next hne hne2 =>
            rw [ihlen] at hne hne2
            have h2 : ¬(32 * t + (31 - b) < j + 1) := by omega
            simp [h2, Nat.zero_testBit]
      · rw [if_neg hpix]
        dsimp only
        refine ⟨by simp [ihlen]; omega, by rw [show (j + 1) % 32 = 1 by omega]; decide, ?_⟩
        intro t b hb
        rw [getD_append_singleton]
        have hpixf : (pix (base + (j : Int)) != ck) = false := by
          revert hpix; cases pix (base + (j : Int)) != ck <;> simp
        split
        · next hlt =>
          rw [ihbit t b hb]
          rw [ihlen] at hlt
          have h1 : 32 * t + (31 - b) < j := by omega
          have h2 : 32 * t + (31 - b) < j + 1 := by omega
          simp [h1, h2]
        · split
          · next hne heq =>
            rw [ihlen] at heq
            by_cases hb31 : b = 31
            · subst hb31
              have hcol : 32 * t + (31 - 31) = j := by omega
              rw [hcol]
              simp [hpixf, Nat.zero_testBit]
            · have h2 : ¬(32 * t + (31 - b) < j + 1) := by omega
              simp [h2, Nat.zero_testBit]
          · next hne hne2 =>
            rw [ihlen] at hne hne2
            have h2 : ¬(32 * t + (31 - b) < j + 1) := by omega
            simp [h2, Nat.zero_testBit]
    · have hr1 : 1 ≤ j % 32 := by omega
      have hr2 : j % 32 ≤ 31 := by omega
      have hA : (build_row pix ck base j).mask = 2 ^ (31 - j % 32) := by
        rw [ihmask, if_neg hmod]
      rw [hA, if_neg (pow_ne_zero _ (by norm_num))]
      by_cases hpix : (pix (base + (j : Int)) != ck) = true
      · rw [if_pos hpix]
        dsimp only
        refine ⟨by rw [update_last_length, ihlen]; omega, ?_, ?_⟩
        · rw [hA]
          by_cases h31 : j % 32 = 31
          · rw [show (j + 1) % 32 = 0 by omega, if_pos rfl, h31]
            decide
          · rw [show (j + 1) % 32 = j % 32 + 1 by omega,
              if_neg (by omega)]
            rw [show 31 - j % 32 = (31 - (j % 32 + 1)) + 1 by omega]
            rw [Nat.shiftRight_eq_div_pow, pow_succ, pow_one,
              Nat.mul_div_cancel _ (by norm_num)]
        · intro t b hb
          rw [hA, getD_update_last]
          split
          · next heq =>
            rw [ihlen] at heq
            rw [Nat.testBit_or, Nat.testBit_two_pow, ihbit t b hb]
            by_cases hbr : b = 31 - j % 32
            · have hcol : 32 * t + (31 - b) = j := by omega
              rw [hcol]
              have h1 : ¬(j < j) := by omega
              have h2 : j < j + 1 := by omega
              simp [h1, h2, hpix, hbr]
            · have hcolne : 32 * t + (31 - b) ≠ j := by omega
              have : (32 * t + (31 - b) < j) ↔ (32 * t + (31 - b) < j + 1) := by omega
              simp [hbr, this]
              intro h
              omega
          · next hne =>
            rw [ihlen] at hne
            rw [ihbit t b hb]
            have hcolne : 32 * t + (31 - b) ≠ j := by omega
            have : (32 * t + (31 - b) < j) ↔ (32 * t + (31 - b) < j + 1) := by omega
            simp [this]
      · rw [if_neg hpix]
        have hpixf : (pix (base + (j : Int)) != ck) = false := by
          revert hpix; cases pix (base + (j : Int)) != ck <;> simp
        refine ⟨by rw [ihlen]; omega, ?_, ?_⟩
        · rw [hA]
          by_cases h31 : j % 32 = 31
          · rw [show (j + 1) % 32 = 0 by omega, if_pos rfl, h31]
            decide
          · rw [show (j + 1) % 32 = j % 32 + 1 by omega,
              if_neg (by omega)]
            rw [show 31 - j % 32 = (31 - (j % 32 + 1)) + 1 by omega]
            rw [Nat.shiftRight_eq_div_pow, pow_succ, pow_one,
              Nat.mul_div_cancel _ (by norm_num)]
        · intro t b hb
          rw [ihbit t b hb]
          by_cases hcol : 32 * t + (31 - b) = j
          · rw [hcol]
            simp [hpixf]
          · have : (32 * t + (31 - b) < j) ↔ (32 * t + (31 - b) < j + 1) := by omega
            simp [this]

/-- C4: for a constructed bitmap, bit (row, col) is set exactly when the
source byte at that offset inside the extracted sub-rectangle differs
from the (8-bit) colorkey, for every row < h and col < w; and every bit
position at or beyond the width — the trailing bits of the last word of
each row included — is 0. -/
theorem C4_constructor_bits (surface : Surface) (image_position : SDL_Rect)
    (pb : PixelBits)
    (hc : PixelBits.construct surface image_position = some pb) :
    (∀ row : Nat, row < image_position.h.toNat →
      ∀ col : Nat, col < image_position.w.toNat →
      pb.bit row col =
        (surface.pixels ((image_position.y + (row : Int)) * surface.w +
          image_position.x + (col : Int)) != surface.colorkey % 256)) ∧
    (∀ row : Nat, row < image_position.h.toNat →
      ∀ col : Nat, image_position.w.toNat ≤ col →
      pb.bit row col = false) := by
  obtain ⟨-, hpb⟩ := construct_some surface image_position pb hc
  subst hpb
  have hrow : ∀ row : Nat, row < image_position.h.toNat →
      (((List.range image_position.h.toNat).map (fun (i : Nat) =>
        (build_row surface.pixels (surface.colorkey % 256)
          ((image_position.y + (i : Int)) * surface.w + image_position.x)
          image_position.w.toNat).words)).getD row []) =
      (build_row surface.pixels (surface.colorkey % 256)
        ((image_position.y + (row : Int)) * surface.w + image_position.x)
        image_position.w.toNat).words := by
    intro row hr
    rw [List.getD_eq_getElem _ _ (by simpa using hr), List.getElem_map,
      List.getElem_range]
  constructor
  · intro row hr col hcol
    unfold PixelBits.bit
    dsimp only
    rw [hrow row hr]
    obtain ⟨-, -, hbit⟩ := build_row_spec surface.pixels (surface.colorkey % 256)
      ((image_position.y + (row : Int)) * surface.w + image_position.x)
      image_position.w.toNat
    rw [hbit (col / 32) (31 - col % 32) (by omega)]
    rw [show 32 * (col / 32) + (31 - (31 - col % 32)) = col by omega]
    simp [hcol]
  · intro row hr col hcol
    unfold PixelBits.bit
    dsimp only
    rw [hrow row hr]
    obtain ⟨-, -, hbit⟩ := build_row_spec surface.pixels (surface.colorkey % 256)
      ((image_position.y + (row : Int)) * surface.w + image_position.x)
      image_position.w.toNat
    rw [hbit (col / 32) (31 - col % 32) (by omega)]
    rw [show 32 * (col / 32) + (31 - (31 - col % 32)) = col by omega]
    simp
    omega

set_option maxRecDepth 4096 in
/-- Witness for C4: the 32×1 frame whose only non-colorkey byte is at
index 31. -/
theorem C4_constructor_bits_witness :
    (∀ row : Nat, row < 1 →
      ∀ col : Nat, col < 32 →
      PixelBits.bit ⟨32, 1, 1, [[1]]⟩ row col =
        ((if ((0 : Int) + (row : Int)) * 32 + 0 + (col : Int) = 31
            then (1 : Nat) else 0) != (0 : Nat) % 256)) ∧
    (∀ row : Nat, row < 1 →
      ∀ col : Nat, 32 ≤ col →
      PixelBits.bit ⟨32, 1, 1, [[1]]⟩ row col = false) :=
  C4_constructor_bits ⟨8, 0, 32, fun idx => if idx = 31 then 1 else 0⟩
    ⟨0, 0, 32, 1⟩ ⟨32, 1, 1, [[1]]⟩ (by decide)
